import Mathlib

/-!
Verification of the `vite-plugin-mpa` core (page discovery, template
resolution, idempotent script injection, dev request resolution, caches,
and the production virtual-module hooks) against its TypeScript source.

Strings are modelled as Lean `String`/`List Char`; the file system is an
explicit oracle (directory tree plus an existence/content map); the two
process-wide `Map` caches are association lists threaded through the
functions that mutate them; the error-reporting callback is modelled as a
list of emitted messages.
-/

set_option autoImplicit false
set_option maxRecDepth 8192

namespace VitePluginMpa

/-! ## JavaScript string primitives -/

/-- JS `\s` whitespace class, restricted to the ASCII characters that can
appear in this plugin's strings. -/
def jsWs (c : Char) : Bool :=
  c == ' ' || c == '\t' || c == '\n' || c == '\r' || c == Char.ofNat 11 || c == Char.ofNat 12

/-- Case-insensitive character comparison, as performed under the `i` regex flag. -/
def ciEq (a b : Char) : Bool := a.toLower == b.toLower

/-- Is `pat` a case-insensitive prefix of `s`? -/
def ciStarts : List Char → List Char → Bool
  | [], _ => true
  | _ :: _, [] => false
  | p :: ps, c :: cs => ciEq c p && ciStarts ps cs

/-! ## The script-detection regex of `isScriptAlreadyInjected`

The source builds
`<script\s+[^>]*type=["']module["'][^>]*src=["']${escapeRegExp(scriptSrc)}["'][^>]*>\s*</script>`
with flag `i` and calls `.test(html)`.  Because `escapeRegExp` escapes every
regex metacharacter, the `escapeRegExp(scriptSrc)` portion denotes a literal
(case-insensitive) match of `scriptSrc`.  The regex is modelled as a token
list with existential match semantics. -/

/-- One piece of the fixed detection regex. -/
inductive Tok where
  | lit (c : Char)
  | quoteCls
  | notGtStar
  | wsPlus
  | wsStar
  deriving DecidableEq

/-- Can the token list match the empty string? -/
def nullable : List Tok → Bool
  | [] => true
  | Tok.notGtStar :: ts => nullable ts
  | Tok.wsStar :: ts => nullable ts
  | _ => false

/-- All continuation token lists after the pattern consumes character `c`. -/
def delta (c : Char) : List Tok → List (List Tok)
  | [] => []
  | Tok.lit d :: ts => if ciEq c d then [ts] else []
  | Tok.quoteCls :: ts => if c == '"' || c == Char.ofNat 39 then [ts] else []
  | Tok.notGtStar :: ts => (if c == '>' then [] else [Tok.notGtStar :: ts]) ++ delta c ts
  | Tok.wsPlus :: ts => if jsWs c then [Tok.wsStar :: ts] else []
  | Tok.wsStar :: ts => (if jsWs c then [Tok.wsStar :: ts] else []) ++ delta c ts

/-- Does the token pattern match some prefix of `s`? -/
def mtch : List Char → List Tok → Bool
  | [], ts => nullable ts
  | c :: s, ts => nullable ts || (delta c ts).any (fun ts2 => mtch s ts2)

/-- `regex.test`: does the pattern match starting at some position of `s`? -/
def srch (ts : List Tok) : List Char → Bool
  | [] => mtch [] ts
  | s@(_ :: rest) => mtch s ts || srch ts rest

/-- Literal (case-insensitive) tokens for a string. -/
def strToks (s : String) : List Tok := s.data.map Tok.lit

/-- Token form of the detection regex for a given `scriptSrc`. -/
def scriptReToks (scriptSrc : String) : List Tok :=
  strToks "<script" ++ [Tok.wsPlus, Tok.notGtStar] ++ strToks "type=" ++ [Tok.quoteCls]
    ++ strToks "module" ++ [Tok.quoteCls, Tok.notGtStar] ++ strToks "src=" ++ [Tok.quoteCls]
    ++ strToks scriptSrc ++ [Tok.quoteCls, Tok.notGtStar, Tok.lit '>', Tok.wsStar]
    ++ strToks "</script>"

/-- `isScriptAlreadyInjected(html, scriptSrc)` from the source: test the
detection regex against the whole HTML string. -/
def isScriptAlreadyInjected (html scriptSrc : String) : Bool :=
  srch (scriptReToks scriptSrc) html.data

/-! ## `injectScriptTag` and JS `String.prototype.replace` -/

/-- The exact tag text built by `injectScriptTag`. -/
def scriptTagStr (scriptSrc : String) : String :=
  "<script type=\"module\" src=\"" ++ scriptSrc ++ "\"></script>"

/-- `</body>` as a character list. -/
def bodyCloseChars : List Char := "</body>".data

/-- Does `s` contain `</body>` case-insensitively?  Models `/<\/body>/i.test(html)`. -/
def hasBodyClose : List Char → Bool
  | [] => false
  | s@(_ :: rest) => ciStarts bodyCloseChars s || hasBodyClose rest

/-- JS replacement-pattern substitution (`GetSubstitution`) for a regex with
no capture groups: `$$` yields `$`, `$&` the matched text `m`, a dollar
followed by a backquote the text `b` before the match, `$` followed by an
apostrophe the text `a` after the match; any other `$` sequence is literal. -/
def procRepl (m b a : List Char) : List Char → List Char
  | [] => []
  | c :: rest =>
    if c == '$' then
      match rest with
      | [] => [c]
      | d :: rest2 =>
        if d == '$' then '$' :: procRepl m b a rest2
        else if d == '&' then m ++ procRepl m b a rest2
        else if d == Char.ofNat 96 then b ++ procRepl m b a rest2
        else if d == Char.ofNat 39 then a ++ procRepl m b a rest2
        else c :: d :: procRepl m b a rest2
    else c :: procRepl m b a rest

/-- `html.replace(/<\/body>/i, repl)`: replace the first case-insensitive
occurrence of `</body>` by the substituted replacement text; `before` holds
the already scanned characters. -/
def replaceBodyClose (before : List Char) (repl : List Char) : List Char → List Char
  | [] => before
  | s@(c :: rest) =>
    if ciStarts bodyCloseChars s then
      before ++ procRepl (s.take 7) before (s.drop 7) repl ++ s.drop 7
    else replaceBodyClose (before ++ [c]) repl rest

/-- `injectScriptTag(html, scriptSrc)` from the source: insert the tag right
before the first `</body>`, or append it at the end if no `</body>` exists. -/
def injectScriptTag (html scriptSrc : String) : String :=
  let scriptTag := scriptTagStr scriptSrc
  if hasBodyClose html.data then
    String.mk (replaceBodyClose [] (scriptTag ++ "\n  </body>").data html.data)
  else html ++ "\n" ++ scriptTag ++ "\n"

/-- The injection step performed by `loadHtmlContent`:
`isScriptAlreadyInjected(htmlRaw, scriptSrc) ? htmlRaw : injectScriptTag(htmlRaw, scriptSrc)`. -/
def injectScriptStep (html scriptSrc : String) : String :=
  if isScriptAlreadyInjected html scriptSrc then html else injectScriptTag html scriptSrc

/-! ## File-system oracle and the two caches -/

/-- File-system content oracle: a finite map from path to `some content`
(readable file) or `none` (the path exists but `readFileSync` throws). -/
structure Fs where
  files : List (String × Option String)

/-- `existsSync(p)`. -/
def fsExists (fs : Fs) (p : String) : Bool := fs.files.any (fun e => e.1 == p)

/-- `readFileSync(p)`; `none` models a thrown read error. -/
def fsRead (fs : Fs) (p : String) : Option String :=
  match fs.files.find? (fun e => e.1 == p) with
  | some e => e.2
  | none => none

/-- JS `Map.get` (also JS object property access), as an association-list
lookup. -/
def jsGet {α : Type} (m : List (String × α)) (k : String) : Option α :=
  (m.find? (fun e => e.1 == k)).map (fun e => e.2)

/-- JS `Map.set` (also JS object property assignment): overwrite in place if
the key is present, append otherwise. -/
def jsSet {α : Type} (m : List (String × α)) (k : String) (v : α) : List (String × α) :=
  if m.any (fun e => e.1 == k) then m.map (fun e => if e.1 == k then (e.1, v) else e)
  else m ++ [(k, v)]

/-- The built-in fallback template `templateFallback` (after `.trim()`). -/
def templateFallback : String :=
  "<!doctype html>\n<html>\n  <head>\n    <meta charset=\"utf-8\" />\n    <meta name=\"viewport\" content=\"width=device-width, initial-scale=1\" />\n    <title>Vite MPA</title>\n  </head>\n  <body>\n    <div id=\"app\"></div>\n  </body>\n</html>"

/-- `readTemplateWithCache(templatePath, onError)` from the source, with the
`templateContentCache` map `tc` threaded explicitly; the third component is
the list of messages passed to the `onError` callback. -/
def readTemplateWithCache (fs : Fs) (tc : List (String × String)) (templatePath : String) :
    String × List (String × String) × List String :=
  if templatePath == "" then (templateFallback, tc, [])
  else
    let cached := (jsGet tc templatePath).getD ""
    if cached != "" then (cached, tc, [])
    else
      let read : Option String := if fsExists fs templatePath then fsRead fs templatePath else none
      let errs : List String :=
        if fsExists fs templatePath && (fsRead fs templatePath).isNone then
          ["[vite-plugin-mpa] Failed to read template: " ++ templatePath]
        else []
      let html0 := read.getD ""
      let html := if html0 == "" then templateFallback else html0
      (html, jsSet tc templatePath html, errs)

/-! ## Script `src` construction -/

/-- `withTrailingSlash(base)`: append a `/` when the last character is not `/`. -/
def withTrailingSlash (base : String) : String :=
  if base.data.getLast? == some '/' then base else base ++ "/"

/-- `toPosix(p)`: replace every backslash by a forward slash. -/
def toPosix (p : String) : String :=
  String.mk (p.data.map (fun c => if c == '\\' then '/' else c))

/-- `base || '/'` (JS falsiness of the empty string). -/
def baseOrRoot (base : String) : String := if base == "" then "/" else base

/-- `replace(/^\//, '')`: strip a single leading slash. -/
def stripOneLeadingSlash (s : String) : String :=
  match s.data with
  | c :: rest => if c == '/' then String.mk rest else s
  | [] => s

/-- `buildScriptSrc(entryPosix, isDev, base)` from the source. -/
def buildScriptSrc (entryPosix : String) (isDev : Bool) (base : String) : String :=
  if !isDev then entryPosix
  else withTrailingSlash (baseOrRoot base) ++ stripOneLeadingSlash entryPosix

/-! ## Pages, caches state, and `loadHtmlContent` -/

/-- A discovered page. -/
structure Page where
  name : String
  entry : String
  template : String
  deriving DecidableEq

/-- The two process-wide caches. -/
structure Caches where
  templateContentCache : List (String × String)
  entryContentCache : List (String × String)
  deriving DecidableEq

/-- `loadHtmlContent(page, isDev, base, onError)` from the source: dev-cache
check, template read, idempotent injection, dev-cache store.  The third
component is the list of `onError` messages. -/
def loadHtmlContent (fs : Fs) (st : Caches) (page : Page) (isDev : Bool) (base : String) :
    String × Caches × List String :=
  let entryPosix := toPosix page.entry
  let scriptSrc := buildScriptSrc entryPosix isDev base
  let cacheKey :=
    if isDev then withTrailingSlash (baseOrRoot base) ++ "|" ++ entryPosix else entryPosix
  let cached := if isDev then (jsGet st.entryContentCache cacheKey).getD "" else ""
  if isDev && cached != "" then (cached, st, [])
  else
    let r := readTemplateWithCache fs st.templateContentCache page.template
    let htmlFinal := injectScriptStep r.1 scriptSrc
    let st2 : Caches :=
      { templateContentCache := r.2.1
        entryContentCache :=
          if isDev then jsSet st.entryContentCache cacheKey htmlFinal
          else st.entryContentCache }
    (htmlFinal, st2, r.2.2)

/-- `.endsWith(suffix)` on plain strings. -/
def strEndsWith (s suffix : String) : Bool := suffix.data.isSuffixOf s.data

/-- The dev server `change` watcher handler: clear both caches in full when
any `.html` file changes. -/
def onWatcherChange (st : Caches) (file : String) : Caches :=
  if strEndsWith file ".html" then { templateContentCache := [], entryContentCache := [] }
  else st

/-! ## Page discovery (`findEntryFiles`, `resolvePages`) -/

mutual
/-- A directory entry, mirroring `fs.Dirent` for the walk. -/
inductive FsEntry where
  | file (name : String)
  | dir (name : String) (children : FsList)
  | symlink (name : String)
/-- A directory listing. -/
inductive FsList where
  | nil
  | cons (e : FsEntry) (rest : FsList)
end

/-- `ent.name`. -/
def entName : FsEntry → String
  | .file n => n
  | .dir n _ => n
  | .symlink n => n

/-- `ent.isDirectory()`. -/
def entIsDir : FsEntry → Bool
  | .dir _ _ => true
  | _ => false

/-- `ent.isSymbolicLink()`. -/
def entIsSymlink : FsEntry → Bool
  | .symlink _ => true
  | _ => false

/-- `name.startsWith('.')`. -/
def hiddenName (s : String) : Bool := s.data.head? == some '.'

/-- The `shouldSkip` predicate of the walk: `node_modules`, `dist`, `.git`,
hidden directories, and symlinks. -/
def shouldSkip (e : FsEntry) : Bool :=
  entName e == "node_modules" || entName e == "dist" || entName e == ".git"
    || (entIsDir e && hiddenName (entName e)) || entIsSymlink e

/-- `path.join(relDir, name)` for a single-character separator `sep`. -/
def joinRel (sep : Char) (relDir name : String) : String :=
  if relDir == "" then name else relDir ++ String.mk [sep] ++ name

/-- JS `str.split(sep)` for a single-character separator. -/
def splitOnCh (sep : Char) : List Char → List (List Char)
  | [] => [[]]
  | c :: rest =>
    if c == sep then [] :: splitOnCh sep rest
    else
      match splitOnCh sep rest with
      | [] => [[c]]
      | h :: t => (c :: h) :: t

/-- `parts.join(sep)` for a single-character separator. -/
def joinWith (sep : Char) : List (List Char) → List Char
  | [] => []
  | [p] => p
  | p :: rest => p ++ sep :: joinWith sep rest

/-- `rel.split(path.sep).join('/')`: POSIX form of a relative path. -/
def relToPosix (sep : Char) (rel : String) : String :=
  String.mk (joinWith '/' (splitOnCh sep rel.data))

mutual
/-- The walk of `findEntryFiles` over one directory entry: skip per
`shouldSkip`, recurse into directories, record matching files as POSIX
relative paths. -/
def walkEntry (sep : Char) (targets : List String) : FsEntry → String → List String
  | e, relDir =>
    if shouldSkip e then []
    else
      match e with
      | .dir name children => walkDir sep targets children (joinRel sep relDir name)
      | .file name =>
        if targets.contains name then [relToPosix sep (joinRel sep relDir name)] else []
      | .symlink _ => []
/-- The walk over a directory listing. -/
def walkDir (sep : Char) (targets : List String) : FsList → String → List String
  | .nil, _ => []
  | .cons e rest, relDir => walkEntry sep targets e relDir ++ walkDir sep targets rest relDir
end

/-- `findEntryFiles(rootDir, entryFiles)`: `tree` stands for `rootDir`'s
contents and `targets` for the entry-filename set. -/
def findEntryFiles (sep : Char) (targets : List String) (tree : FsList) : List String :=
  walkDir sep targets tree ""

/-- `path.posix.dirname` for the relative POSIX paths the walk produces. -/
def posixDirname (s : String) : String :=
  if s.data.contains '/' then String.mk (joinWith '/' ((splitOnCh '/' s.data).dropLast))
  else "."

/-- The name derivation of `resolvePages`:
`entryDir === '.' ? 'index' : entryDir`. -/
def deriveName (relPosix : String) : String :=
  if posixDirname relPosix == "." then "index" else posixDirname relPosix

/-- `path.posix.join(a, b)` for the already-normalized shapes `resolvePages`
produces. -/
def posixJoin (a b : String) : String :=
  if a == "" then b else if b == "" then a else a ++ "/" ++ b

/-- `path.join(absPagesDir, entryDirSep, 'index.html')`, with node's removal
of a `"."` middle segment. -/
def pathJoin3 (sep : Char) (a mid c : String) : String :=
  if mid == "." then a ++ String.mk [sep] ++ c
  else a ++ String.mk [sep] ++ mid ++ String.mk [sep] ++ c

/-- The colocated-template candidate path of `resolvePages`:
`path.join(absPagesDir, entryDir.split('/').join(path.sep), 'index.html')`. -/
def colocatedTemplate (sep : Char) (absPagesDir relPosix : String) : String :=
  pathJoin3 sep absPagesDir
    (String.mk (joinWith sep (splitOnCh '/' (posixDirname relPosix).data))) "index.html"

/-- The per-match body of `resolvePages`: derive the name, the root-relative
entry specifier, and the template path via the priority chain.  `fs` is the
`existsSync` oracle and `absPagesDir` stands for
`path.resolve(process.cwd(), pagesDir)`. -/
def resolveItem (fs : Fs) (sep : Char) (absPagesDir pagesDir defaultTemplate : String)
    (relPosix : String) : Page :=
  let entryDir := posixDirname relPosix
  let name := if entryDir == "." then "index" else entryDir
  let entry := "/" ++ posixJoin (toPosix pagesDir) relPosix
  let colocated := colocatedTemplate sep absPagesDir relPosix
  let template :=
    if fsExists fs colocated then colocated
    else if defaultTemplate != "" && fsExists fs defaultTemplate then defaultTemplate
    else ""
  { name := name, entry := entry, template := template }

/-- `Object.fromEntries(items)`: insert the pairs left to right with JS
object semantics (first insertion position, last value wins). -/
def fromEntries (items : List (String × Page)) : List (String × Page) :=
  items.foldl (fun m kv => jsSet m kv.1 kv.2) []

/-- `resolvePages(pagesDir, entryFiles, defaultTemplate)` from the source:
discover matches, map each to a `Page`, and build the name-indexed object. -/
def resolvePages (fs : Fs) (sep : Char) (absPagesDir pagesDir defaultTemplate : String)
    (targets : List String) (tree : FsList) : List (String × Page) :=
  let found := findEntryFiles sep targets tree
  let items := found.map (resolveItem fs sep absPagesDir pagesDir defaultTemplate)
  fromEntries (items.map (fun it => (it.name, it)))

/-! ## Dev request resolution (`parsePageMeta`) -/

/-- `originalUrl.split('?')` (splits at every `?`). -/
def splitQ (s : String) : List String := (splitOnCh '?' s.data).map String.mk

/-- `replace(/\/+$/, '')`: strip all trailing slashes. -/
def stripTrailingSlashes (s : String) : String :=
  String.mk ((s.data.reverse.dropWhile (fun c => c == '/')).reverse)

/-- `/\.html$/i.test(s)`: case-insensitive `.html`-suffix test. -/
def endsWithHtmlCI (s : String) : Bool := ciStarts ".html".data.reverse s.data.reverse

/-- `replace(/\.html$/i, '')`. -/
def stripHtmlSuffixCI (s : String) : String :=
  if endsWithHtmlCI s then String.mk (s.data.take (s.data.length - 5)) else s

/-- `parsePageMeta(originalUrl)` from the source; returns `(url, name)`. -/
def parsePageMeta (originalUrl : String) : String × String :=
  let parts := splitQ originalUrl
  let rawPath := parts.headD ""
  let rawQuery := parts.getD 1 ""
  let pathOnly :=
    if rawPath == "/" || rawPath == "" then "/index.html"
    else if !endsWithHtmlCI rawPath then stripTrailingSlashes rawPath ++ ".html"
    else rawPath
  let url := if rawQuery != "" then pathOnly ++ "?" ++ rawQuery else pathOnly
  let name := stripHtmlSuffixCI (stripOneLeadingSlash pathOnly)
  (url, name)

/-! ## Production adapter hooks -/

/-- `id.slice(0, -'.html'.length)`. -/
def dropHtmlSuffix (id : String) : String := String.mk (id.data.take (id.data.length - 5))

/-- The build plugin's `resolveId` hook: claim exactly the `.html` ids. -/
def prodResolveId (id : String) : Option String :=
  if strEndsWith id ".html" then some id else none

/-- The build plugin's `load` hook: for a claimed id, strip the suffix, look
the page up, and render it in production mode with base `/`; decline
otherwise.  The caches are threaded as in `loadHtmlContent`. -/
def prodLoad (pages : List (String × Page)) (fs : Fs) (st : Caches) (id : String) :
    Option String × Caches :=
  if !(strEndsWith id ".html") then (none, st)
  else
    match jsGet pages (dropHtmlSuffix id) with
    | some page =>
      let r := loadHtmlContent fs st page false "/"
      (some r.1, r.2.1)
    | none => (none, st)

/-- Claim-side predicate (C8): does `s` end with exactly one `/`? -/
def endsWithExactlyOneSlash (s : String) : Bool :=
  match s.data.reverse with
  | [] => false
  | c :: rest => c == '/' && rest.head? != some '/'

/-- Claim-side lookup (C9): the value of the last pair with key `k` in scan
order, as the claim's "last wins" rule describes. -/
def lastWins (items : List (String × Page)) (k : String) : Option Page :=
  (items.reverse.find? (fun e => e.1 == k)).map (fun e => e.2)

/-- A directory-entry name suitable for cross-platform discovery: nonempty
and containing neither the platform separator nor a forward slash. -/
def goodNameB (sep : Char) (s : String) : Bool :=
  !s.data.isEmpty && !(s.data.contains sep) && !(s.data.contains '/')

mutual
/-- All names in the entry are `goodNameB`. -/
def goodEntryB (sep : Char) : FsEntry → Bool
  | .file n => goodNameB sep n
  | .symlink n => goodNameB sep n
  | .dir n children => goodNameB sep n && goodListB sep children
/-- All names in the listing are `goodNameB`. -/
def goodListB (sep : Char) : FsList → Bool
  | .nil => true
  | .cons e rest => goodEntryB sep e && goodListB sep rest
end

/-- The relative directory as a component list, joined with `sep`. -/
def joinComps (sep : Char) (comps : List String) : String :=
  String.mk (joinWith sep (comps.map String.data))

mutual
/-- Platform-independent form of the walk: the relative directory is carried
as a component list and matches are emitted as slash-joined components. -/
def walkEntryC (targets : List String) : FsEntry → List String → List String
  | e, comps =>
    if shouldSkip e then []
    else
      match e with
      | .dir name children => walkDirC targets children (comps ++ [name])
      | .file name =>
        if targets.contains name then
          [String.mk (joinWith '/' ((comps ++ [name]).map String.data))]
        else []
      | .symlink _ => []
/-- Platform-independent walk over a listing. -/
def walkDirC (targets : List String) : FsList → List String → List String
  | .nil, _ => []
  | .cons e rest, comps => walkEntryC targets e comps ++ walkDirC targets rest comps
end

/-- A concrete demonstration tree: one page directory `a` with an entry. -/
def demoTree : FsList :=
  FsList.cons (FsEntry.dir "a" (FsList.cons (FsEntry.file "main.ts") FsList.nil)) FsList.nil

/-- A concrete demonstration file system holding both a colocated template
for the `a` page and the default template. -/
def demoFs : Fs :=
  Fs.mk [("/abs/a/index.html", some "<body></body>"),
    ("src/index.html", some "<html><body></body></html>")]

/-- A concrete demonstration tree with a root-level entry and a nested one. -/
def demoTreeNested : FsList :=
  FsList.cons (FsEntry.file "main.ts")
    (FsList.cons
      (FsEntry.dir "admin"
        (FsList.cons
          (FsEntry.dir "dashboard" (FsList.cons (FsEntry.file "main.ts") FsList.nil))
          FsList.nil))
      FsList.nil)

/-! ## Matcher lemmas -/

theorem mtch_nil_toks (s : List Char) : mtch s [] = true := by
  cases s <;> simp [mtch, nullable]

theorem mtch_lit (c : Char) (s : List Char) (ts : List Tok) (h : mtch s ts = true) :
    mtch (c :: s) (Tok.lit c :: ts) = true := by
  simp [mtch, nullable, delta, ciEq, h]

theorem mtch_lits (l : List Char) (ts : List Tok) (s : List Char) (h : mtch s ts = true) :
    mtch (l ++ s) (l.map Tok.lit ++ ts) = true := by
  induction l with
  | nil => simpa using h
  | cons c l ih => simpa using mtch_lit c (l ++ s) (l.map Tok.lit ++ ts) ih

theorem mtch_str (p : String) (ts : List Tok) (s : List Char) (h : mtch s ts = true) :
    mtch (p.data ++ s) (strToks p ++ ts) = true :=
  mtch_lits p.data ts s h

theorem mtch_quote (s : List Char) (ts : List Tok) (h : mtch s ts = true) :
    mtch ('"' :: s) (Tok.quoteCls :: ts) = true := by
  simp [mtch, nullable, delta, h]

theorem mtch_notGt_skip (s : List Char) (ts : List Tok) (h : mtch s ts = true) :
    mtch s (Tok.notGtStar :: ts) = true := by
  cases s with
  | nil => simpa [mtch, nullable] using h
  | cons c rest =>
    simp only [mtch, nullable, delta, List.any_append, Bool.or_eq_true] at h ⊢
    rcases h with h | h
    · exact Or.inl h
    · exact Or.inr (Or.inr h)

theorem mtch_notGt_cons (c : Char) (s : List Char) (ts : List Tok) (hc : (c == '>') = false)
    (h : mtch s (Tok.notGtStar :: ts) = true) :
    mtch (c :: s) (Tok.notGtStar :: ts) = true := by
  simp only [mtch, nullable, delta, hc, Bool.false_eq_true, if_false, List.any_append,
    Bool.or_eq_true] at h ⊢
  exact Or.inr (Or.inl (by simpa using h))

theorem mtch_wsStar_skip (s : List Char) (ts : List Tok) (h : mtch s ts = true) :
    mtch s (Tok.wsStar :: ts) = true := by
  cases s with
  | nil => simpa [mtch, nullable] using h
  | cons c rest =>
    simp only [mtch, nullable, delta, List.any_append, Bool.or_eq_true] at h ⊢
    rcases h with h | h
    · exact Or.inl h
    · exact Or.inr (Or.inr h)

theorem mtch_wsPlus_space (s : List Char) (ts : List Tok)
    (h : mtch s (Tok.wsStar :: ts) = true) :
    mtch (' ' :: s) (Tok.wsPlus :: ts) = true := by
  simp [mtch, nullable, delta, jsWs, h]

theorem mtch_scriptTag (src : String) (rest : List Char) :
    mtch ((scriptTagStr src).data ++ rest) (scriptReToks src) = true := by
  have h1 : mtch ("</script>".data ++ rest) (strToks "</script>") = true := by
    simpa using mtch_str "</script>" [] rest (mtch_nil_toks rest)
  have h2 := mtch_wsStar_skip _ _ h1
  have h3 := mtch_lit '>' _ _ h2
  have h4 := mtch_notGt_skip _ _ h3
  have h5 := mtch_quote _ _ h4
  have h6 := mtch_str src _ _ h5
  have h7 := mtch_quote _ _ h6
  have h8 := mtch_str "src=" _ _ h7
  have h9 := mtch_notGt_cons ' ' _ _ (by decide) (mtch_notGt_skip _ _ h8)
  have h10 := mtch_quote _ _ h9
  have h11 := mtch_str "module" _ _ h10
  have h12 := mtch_quote _ _ h11
  have h13 := mtch_str "type=" _ _ h12
  have h14 := mtch_wsPlus_space _ _ (mtch_wsStar_skip _ _ (mtch_notGt_skip _ _ h13))
  have h15 := mtch_str "<script" _ _ h14
  have hchars : (scriptTagStr src).data ++ rest
      = "<script".data ++ ' ' :: ("type=".data ++ '"' :: ("module".data
        ++ '"' :: ' ' :: ("src=".data ++ '"' :: (src.data
        ++ '"' :: '>' :: ("</script>".data ++ rest))))) := by
    simp [scriptTagStr, String.data_append, List.append_assoc]
  have htoks : scriptReToks src
      = strToks "<script" ++ Tok.wsPlus :: Tok.notGtStar :: (strToks "type="
        ++ Tok.quoteCls :: (strToks "module" ++ Tok.quoteCls :: Tok.notGtStar :: (strToks "src="
        ++ Tok.quoteCls :: (strToks src
        ++ Tok.quoteCls :: Tok.notGtStar :: Tok.lit '>' :: Tok.wsStar :: strToks "</script>")))) := by
    simp [scriptReToks, List.append_assoc]
  rw [hchars, htoks]
  simpa [List.append_assoc] using h15

theorem srch_of_mtch (ts : List Tok) (pre s : List Char) (h : mtch s ts = true) :
    srch ts (pre ++ s) = true := by
  induction pre with
  | nil =>
    cases s with
    | nil => simpa [srch] using h
    | cons c rest => simp [srch, h]
  | cons c pre ih => simp [srch, ih]

theorem procRepl_no_dollar (m b a : List Char) (repl : List Char) (h : '$' ∉ repl) :
    procRepl m b a repl = repl := by
  induction repl with
  | nil => rfl
  | cons c rest ih =>
    simp only [List.mem_cons, not_or] at h
    have hc : (c == '$') = false := beq_eq_false_iff_ne.mpr (Ne.symm h.1)
    rw [procRepl.eq_def]
    simp [hc, ih h.2]

theorem replaceBodyClose_shape (repl : List Char) (hrep : '$' ∉ repl) :
    ∀ (s before : List Char), hasBodyClose s = true →
      ∃ pre post, replaceBodyClose before repl s = before ++ pre ++ repl ++ post := by
  intro s
  induction s with
  | nil => intro before h; simp [hasBodyClose] at h
  | cons c rest ih =>
    intro before h
    by_cases hci : ciStarts bodyCloseChars (c :: rest) = true
    · refine ⟨[], (c :: rest).drop 7, ?_⟩
      simp [replaceBodyClose, hci, procRepl_no_dollar _ _ _ _ hrep]
    · have h' : hasBodyClose rest = true := by
        simp only [hasBodyClose, Bool.or_eq_true] at h
        rcases h with h | h
        · exact absurd h hci
        · exact h
      obtain ⟨pre, post, hp⟩ := ih (before ++ [c]) h'
      refine ⟨c :: pre, post, ?_⟩
      simp only [replaceBodyClose, hci, Bool.false_eq_true, if_false, hp]
      simp

theorem dollar_not_in_tag (src : String) (hd : '$' ∉ src.data) :
    '$' ∉ (scriptTagStr src ++ "\n  </body>" : String).data := by
  intro hmem
  simp only [scriptTagStr, String.data_append, List.mem_append] at hmem
  rcases hmem with ((h | h) | h) | h
  · exact absurd h (by decide)
  · exact hd h
  · exact absurd h (by decide)
  · exact absurd h (by decide)

theorem injected_detected (html src : String) (hd : '$' ∉ src.data) :
    isScriptAlreadyInjected (injectScriptTag html src) src = true := by
  unfold injectScriptTag
  by_cases hb : hasBodyClose html.data = true
  · simp only [hb, if_true]
    obtain ⟨pre, post, hp⟩ :=
      replaceBodyClose_shape _ (dollar_not_in_tag src hd) html.data [] hb
    unfold isScriptAlreadyInjected
    rw [show (String.mk (replaceBodyClose [] (scriptTagStr src ++ "\n  </body>").data
        html.data)).data
      = replaceBodyClose [] (scriptTagStr src ++ "\n  </body>").data html.data from rfl, hp]
    have hm := mtch_scriptTag src (("\n  </body>" : String).data ++ post)
    have := srch_of_mtch (scriptReToks src) pre
      ((scriptTagStr src).data ++ (("\n  </body>" : String).data ++ post)) hm
    simpa [String.data_append, List.append_assoc] using this
  · simp only [hb, Bool.false_eq_true, if_false]
    unfold isScriptAlreadyInjected
    have hm := mtch_scriptTag src ['\n']
    have := srch_of_mtch (scriptReToks src) (html.data ++ ['\n'])
      ((scriptTagStr src).data ++ ['\n']) hm
    simpa [String.data_append, List.append_assoc,
      show ("\n" : String).data = ['\n'] from rfl] using this

/-- C2 (amended): the injection step of `loadHtmlContent` is idempotent for
every HTML string and every script source that contains no `$` character
(JS replacement-pattern expansion in `String.replace` breaks the universal
claim): applying the step twice yields the same result as applying it once,
because `isScriptAlreadyInjected` detects the tag inserted by
`injectScriptTag` and returns the input unchanged. -/
theorem injectScriptStep_idem_of_no_dollar (html src : String) (hd : '$' ∉ src.data) :
    injectScriptStep (injectScriptStep html src) src = injectScriptStep html src := by
  by_cases h : isScriptAlreadyInjected html src = true
  · simp [injectScriptStep, h]
  · have h2 := injected_detected html src hd
    simp [injectScriptStep, h, h2]

/-- Witness for C2 (amended) at a concrete template and entry path. -/
theorem injectScriptStep_idem_witness :
    '$' ∉ ("/src/pages/main.ts" : String).data ∧
      injectScriptStep
          (injectScriptStep "<html><body><div id=\"app\"></div></body></html>"
            "/src/pages/main.ts") "/src/pages/main.ts"
        = injectScriptStep "<html><body><div id=\"app\"></div></body></html>"
            "/src/pages/main.ts" :=
  ⟨by decide, injectScriptStep_idem_of_no_dollar _ _ (by decide)⟩

/-- C2 counterexample: for the script source `$&`, JS replacement-pattern
expansion inserts the matched `</body>` text into the tag, the detection
regex then fails to find the literal `$&`, and a second application injects
again — idempotence fails as universally stated. -/
theorem injectScriptStep_dollar_counterexample :
    injectScriptStep (injectScriptStep "<body></body>" "$&") "$&"
      ≠ injectScriptStep "<body></body>" "$&" := by decide

/-! ## Split lemmas and `parsePageMeta` (C4) -/

theorem splitOnCh_no_sep (sep : Char) (l : List Char) (h : sep ∉ l) :
    splitOnCh sep l = [l] := by
  induction l with
  | nil => rfl
  | cons c rest ih =>
    simp only [List.mem_cons, not_or] at h
    have hc : (c == sep) = false := beq_eq_false_iff_ne.mpr (Ne.symm h.1)
    rw [splitOnCh.eq_def]
    simp [hc, ih h.2]

theorem splitOnCh_append (sep : Char) (p q : List Char) (hp : sep ∉ p) :
    splitOnCh sep (p ++ sep :: q) = p :: splitOnCh sep q := by
  induction p with
  | nil => simp [splitOnCh]
  | cons c p ih =>
    simp only [List.mem_cons, not_or] at hp
    have hc : (c == sep) = false := beq_eq_false_iff_ne.mpr (Ne.symm hp.1)
    rw [List.cons_append, splitOnCh.eq_def]
    simp only [hc, Bool.false_eq_true, if_false, ih hp.2]

theorem splitQ_no_query (p : String) (hp : '?' ∉ p.data) : splitQ p = [p] := by
  simp [splitQ, splitOnCh_no_sep '?' p.data hp]

theorem splitQ_one_query (p q : String) (hp : '?' ∉ p.data) (hq : '?' ∉ q.data) :
    splitQ (p ++ "?" ++ q) = [p, q] := by
  have hdata : (p ++ "?" ++ q).data = p.data ++ '?' :: q.data := by
    simp [String.data_append]
  simp [splitQ, hdata, splitOnCh_append '?' p.data q.data hp,
    splitOnCh_no_sep '?' q.data hq]

/-- C4 (amended): the development request resolver splits the URL at `?`,
keeping only the portion between the first and a possible second `?` as the
query string; a query with no further `?` is reattached unchanged to the
canonical URL.  Path `/` or the empty path yields `/index.html` and page
name `index`; any other query-free path lacking a (case-insensitive)
`.html` suffix has all trailing slashes stripped and `.html` appended; the
page name is the canonical path with one leading slash and the trailing
`.html` removed. -/
theorem parsePageMeta_spec :
    (∀ p q : String, '?' ∉ p.data → '?' ∉ q.data → q ≠ "" →
        parsePageMeta (p ++ "?" ++ q) = ((parsePageMeta p).1 ++ "?" ++ q, (parsePageMeta p).2))
  ∧ parsePageMeta "/" = ("/index.html", "index")
  ∧ parsePageMeta "" = ("/index.html", "index")
  ∧ (∀ p : String, '?' ∉ p.data → p ≠ "/" → p ≠ "" → endsWithHtmlCI p = false →
        (parsePageMeta p).1 = stripTrailingSlashes p ++ ".html")
  ∧ (∀ p : String, '?' ∉ p.data →
        (parsePageMeta p).2 = stripHtmlSuffixCI (stripOneLeadingSlash (parsePageMeta p).1))
  ∧ parsePageMeta "/a/b.html?x=1" = ("/a/b.html?x=1", "a/b") := by
  refine ⟨?_, by decide, by decide, ?_, ?_, by decide⟩
  · intro p q hp hq hne
    have hq' : (q != "") = true := by
      simpa [bne_iff_ne] using hne
    simp [parsePageMeta, splitQ_one_query p q hp hq, splitQ_no_query p hp, hq']
  · intro p hp hslash hempty hhtml
    have h1 : (p == "/") = false := beq_eq_false_iff_ne.mpr hslash
    have h2 : (p == "") = false := beq_eq_false_iff_ne.mpr hempty
    simp [parsePageMeta, splitQ_no_query p hp, h1, h2, hhtml]
  · intro p hp
    simp [parsePageMeta, splitQ_no_query p hp]

/-- Witness for C4 (amended) at the claim's own example `/a/b.html?x=1`. -/
theorem parsePageMeta_witness :
    parsePageMeta ("/a/b.html" ++ "?" ++ "x=1")
      = ((parsePageMeta "/a/b.html").1 ++ "?" ++ "x=1", (parsePageMeta "/a/b.html").2) :=
  parsePageMeta_spec.1 "/a/b.html" "x=1" (by decide) (by decide) (by decide)

/-- C4 counterexample: for `/a?x=1?y=2`, JS `split('?')` destructuring keeps
only `x=1` as the query; the text after the second `?` is dropped, so the
canonical URL is `/a.html?x=1`, not the claimed `/a.html?x=1?y=2`. -/
theorem parsePageMeta_counterexample :
    parsePageMeta "/a?x=1?y=2" = ("/a.html?x=1", "a")
      ∧ (parsePageMeta "/a?x=1?y=2").1 ≠ "/a.html?x=1?y=2" := by decide

/-! ## `buildScriptSrc` (C8) -/

/-- C8 (amended): in production the built script src is the entry path
unchanged.  In development it is the base path (defaulted to `/` when empty,
given a trailing slash when missing one) concatenated with the entry path
minus a single leading slash.  The normalization appends exactly one slash
when the base does not end in one and leaves the base unchanged otherwise —
so the join point has no duplicated separator provided the supplied base
does not already end in a doubled slash and the entry path does not begin
with a doubled slash. -/
theorem buildScriptSrc_spec :
    (∀ e b : String, buildScriptSrc e false b = e)
  ∧ (∀ e b : String, buildScriptSrc e true b
        = withTrailingSlash (baseOrRoot b) ++ stripOneLeadingSlash e)
  ∧ (∀ b : String, b.data.getLast? = some '/' → withTrailingSlash b = b)
  ∧ (∀ b : String, b.data.getLast? ≠ some '/' →
        withTrailingSlash b = b ++ "/" ∧ endsWithExactlyOneSlash (b ++ "/") = true)
  ∧ (∀ e : String, e.data.take 2 ≠ ['/', '/'] →
        (stripOneLeadingSlash e).data.head? ≠ some '/') := by
  refine ⟨fun e b => rfl, fun e b => rfl, ?_, ?_, ?_⟩
  · intro b h
    simp [withTrailingSlash, h]
  · intro b h
    have hc : (b.data.getLast? == some '/') = false := beq_eq_false_iff_ne.mpr h
    constructor
    · simp [withTrailingSlash, hc]
    · have hrev : (b ++ "/").data.reverse = '/' :: b.data.reverse := by
        simp [String.data_append]
      have hhead : b.data.reverse.head? ≠ some '/' := by
        rw [List.head?_reverse]; exact h
      simp only [endsWithExactlyOneSlash, hrev]
      simpa [bne_iff_ne] using h
  · intro e h
    obtain ⟨l⟩ := e
    match l, h with
    | [], _ => decide
    | c :: rest, h =>
      by_cases hc : c = '/'
      · subst hc
        cases rest with
        | nil => decide
        | cons d t =>
          have hd : d ≠ '/' := by
            intro hd; subst hd; exact h (by simp)
          simp [stripOneLeadingSlash, hd]
      · have hc' : (c == '/') = false := beq_eq_false_iff_ne.mpr hc
        simp [stripOneLeadingSlash, hc', hc]

/-- Witness for C8 (amended): base `/app` gets exactly one slash appended. -/
theorem buildScriptSrc_witness :
    withTrailingSlash "/app" = "/app" ++ "/"
      ∧ endsWithExactlyOneSlash ("/app" ++ "/") = true :=
  buildScriptSrc_spec.2.2.2.1 "/app" (by decide)

/-- C8 counterexample: for base `/app//`, `withTrailingSlash` leaves the
doubled slash in place, so the "normalized" base does not end in exactly one
separator as claimed, and the built src is `/app//main.ts` rather than the
claimed exactly-one-separator form `/app/` ++ `main.ts`. -/
theorem buildScriptSrc_counterexample :
    endsWithExactlyOneSlash (withTrailingSlash (baseOrRoot "/app//")) = false
      ∧ buildScriptSrc "/main.ts" true "/app//" = "/app//main.ts"
      ∧ buildScriptSrc "/main.ts" true "/app//" ≠ "/app/" ++ "main.ts" := by decide

/-! ## JS map lemmas -/

theorem find?_cons_pos (α : Type) (p : α → Bool) (a : α) (l : List α) (h : p a = true) :
    List.find? p (a :: l) = some a := by
  simp [List.find?, h]

theorem find?_cons_neg (α : Type) (p : α → Bool) (a : α) (l : List α) (h : p a = false) :
    List.find? p (a :: l) = List.find? p l := by
  simp [List.find?, h]

theorem jsGet_map_set {α : Type} (m : List (String × α)) (k : String) (v : α)
    (h : m.any (fun e => e.1 == k) = true) :
    jsGet (m.map (fun e => if e.1 == k then (e.1, v) else e)) k = some v := by
  induction m with
  | nil => simp at h
  | cons e rest ih =>
    by_cases he : (e.1 == k) = true
    · simp [jsGet, List.find?, he]
    · have h' : rest.any (fun e => e.1 == k) = true := by
        simpa [he] using h
      simpa [jsGet, List.find?, he] using ih h'

theorem jsGet_jsSet_self {α : Type} (m : List (String × α)) (k : String) (v : α) :
    jsGet (jsSet m k v) k = some v := by
  by_cases h : m.any (fun e => e.1 == k) = true
  · simpa [jsSet, h] using jsGet_map_set m k v h
  · have hfind : m.find? (fun e => e.1 == k) = none := by
      rw [List.find?_eq_none]
      intro a ha hp
      exact h (List.any_eq_true.mpr ⟨a, ha, hp⟩)
    simp [jsSet, h, jsGet, List.find?_append, hfind, List.find?]

theorem jsGet_map_other {α : Type} (m : List (String × α)) (k k' : String) (v : α)
    (hne : k' ≠ k) :
    jsGet (m.map (fun e => if e.1 == k then (e.1, v) else e)) k' = jsGet m k' := by
  induction m with
  | nil => rfl
  | cons e rest ih =>
    by_cases he2 : (e.1 == k') = true
    · have h1 : e.1 = k' := by simpa using he2
      have hek : (e.1 == k) = false := by
        rw [h1]; exact beq_eq_false_iff_ne.mpr hne
      unfold jsGet
      rw [List.map_cons, if_neg (by simp [hek]),
        find?_cons_pos (String × α) (fun x => x.1 == k') e
          (rest.map (fun e => if e.1 == k then (e.1, v) else e)) he2,
        find?_cons_pos (String × α) (fun x => x.1 == k') e rest he2]
    · have hf1 : (if e.1 == k then (e.1, v) else e).1 = e.1 := by
        by_cases hek : (e.1 == k) = true <;> simp [hek]
      have hpred : ((if e.1 == k then (e.1, v) else e).1 == k') = false := by
        rw [hf1]; simpa using he2
      have he2' : (e.1 == k') = false := by simpa using he2
      unfold jsGet at ih ⊢
      rw [List.map_cons,
        find?_cons_neg (String × α) (fun x => x.1 == k') _
          (rest.map (fun e => if e.1 == k then (e.1, v) else e)) hpred,
        find?_cons_neg (String × α) (fun x => x.1 == k') e rest he2']
      exact ih

theorem jsGet_jsSet_other {α : Type} (m : List (String × α)) (k k' : String) (v : α)
    (hne : k' ≠ k) :
    jsGet (jsSet m k v) k' = jsGet m k' := by
  by_cases h : m.any (fun e => e.1 == k) = true
  · simp only [jsSet, h, if_true]
    exact jsGet_map_other m k k' v hne
  · simp only [jsSet, h, Bool.false_eq_true, if_false]
    have hone : ([(k, v)] : List (String × α)).find? (fun e => e.1 == k') = none := by
      simp [List.find?, beq_eq_false_iff_ne.mpr (fun e => hne e.symm)]
    simp [jsGet, List.find?_append, hone]

/-! ## `readTemplateWithCache` (C6) -/

theorem fsExists_of_fsRead_some (fs : Fs) (p c : String) (h : fsRead fs p = some c) :
    fsExists fs p = true := by
  unfold fsRead at h
  cases hf : fs.files.find? (fun e => e.1 == p) with
  | none => rw [hf] at h; cases h
  | some e =>
    have hm := List.mem_of_find?_eq_some hf
    have hp := List.find?_some hf
    exact List.any_eq_true.mpr ⟨e, hm, hp⟩

theorem readTemplate_missing (fs : Fs) (tc : List (String × String)) (t : String)
    (ht : (t == "") = false) (hcold : (jsGet tc t).getD "" = "")
    (hex : fsExists fs t = false) :
    readTemplateWithCache fs tc t = (templateFallback, jsSet tc t templateFallback, []) := by
  simp [readTemplateWithCache, ht, hcold, hex]

theorem readTemplate_readfail (fs : Fs) (tc : List (String × String)) (t : String)
    (ht : (t == "") = false) (hcold : (jsGet tc t).getD "" = "")
    (hex : fsExists fs t = true) (hread : fsRead fs t = none) :
    readTemplateWithCache fs tc t
      = (templateFallback, jsSet tc t templateFallback,
         ["[vite-plugin-mpa] Failed to read template: " ++ t]) := by
  simp [readTemplateWithCache, ht, hcold, hex, hread]

theorem readTemplate_success (fs : Fs) (tc : List (String × String)) (t c : String)
    (ht : (t == "") = false) (hcold : (jsGet tc t).getD "" = "")
    (hread : fsRead fs t = some c) (hc : (c == "") = false) :
    readTemplateWithCache fs tc t = (c, jsSet tc t c, []) := by
  have hex := fsExists_of_fsRead_some fs t c hread
  simp [readTemplateWithCache, ht, hcold, hex, hread, hc]

theorem readTemplate_empty_content (fs : Fs) (tc : List (String × String)) (t : String)
    (ht : (t == "") = false) (hcold : (jsGet tc t).getD "" = "")
    (hread : fsRead fs t = some "") :
    readTemplateWithCache fs tc t = (templateFallback, jsSet tc t templateFallback, []) := by
  have hex := fsExists_of_fsRead_some fs t "" hread
  simp [readTemplateWithCache, ht, hcold, hex, hread]

/-- C6 (amended): `readTemplateWithCache` never throws: with no cached entry
for the path, a missing file silently yields the built-in fallback and does
not invoke the error callback; a read failure on an existing file yields the
fallback and reports through the callback; a successful non-empty read
yields the file's text; in each of these cases the result is cached under
the requested path; and the empty-string sentinel path returns the fallback
directly, leaving the cache untouched. -/
theorem readTemplateWithCache_spec :
    (∀ fs tc, readTemplateWithCache fs tc "" = (templateFallback, tc, []))
  ∧ (∀ fs tc t, (t == "") = false → (jsGet tc t).getD "" = "" →
      jsGet (readTemplateWithCache fs tc t).2.1 t = some (readTemplateWithCache fs tc t).1
      ∧ (fsExists fs t = false →
          readTemplateWithCache fs tc t = (templateFallback, jsSet tc t templateFallback, []))
      ∧ (fsExists fs t = true → fsRead fs t = none →
          readTemplateWithCache fs tc t
            = (templateFallback, jsSet tc t templateFallback,
               ["[vite-plugin-mpa] Failed to read template: " ++ t]))
      ∧ (∀ c, fsRead fs t = some c → (c == "") = false →
          readTemplateWithCache fs tc t = (c, jsSet tc t c, []))) := by
  refine ⟨fun fs tc => by simp [readTemplateWithCache], ?_⟩
  intro fs tc t ht hcold
  refine ⟨?_, readTemplate_missing fs tc t ht hcold,
    readTemplate_readfail fs tc t ht hcold,
    fun c hr hc => readTemplate_success fs tc t c ht hcold hr hc⟩
  by_cases hex : fsExists fs t = true
  · cases hread : fsRead fs t with
    | none =>
      rw [readTemplate_readfail fs tc t ht hcold hex hread]
      exact jsGet_jsSet_self tc t templateFallback
    | some c =>
      by_cases hc : (c == "") = true
      · have : c = "" := by simpa using hc
        subst this
        rw [readTemplate_empty_content fs tc t ht hcold hread]
        exact jsGet_jsSet_self tc t templateFallback
      · have hc' : (c == "") = false := by simpa using hc
        rw [readTemplate_success fs tc t c ht hcold hread hc']
        exact jsGet_jsSet_self tc t c
  · have hex' : fsExists fs t = false := by simpa using hex
    rw [readTemplate_missing fs tc t ht hcold hex']
    exact jsGet_jsSet_self tc t templateFallback

/-- Witness for C6 (amended): a readable template is returned as-is and
cached; the sentinel path returns the fallback and leaves the cache alone. -/
theorem readTemplateWithCache_witness :
    readTemplateWithCache (Fs.mk [("/abs/t.html", some "<body></body>")]) []
        "/abs/t.html"
      = ("<body></body>", jsSet [] "/abs/t.html" "<body></body>", []) :=
  (readTemplateWithCache_spec.2 (Fs.mk [("/abs/t.html", some "<body></body>")]) []
      "/abs/t.html" (by decide) (by decide)).2.2.2 "<body></body>" (by decide) (by decide)

/-- C6 counterexample: for a missing template file the code silently falls
back — the injected error callback is never invoked (`[]` messages), while
the claim requires a missing file to be reported through the callback. -/
theorem readTemplateWithCache_counterexample :
    fsExists (Fs.mk []) "/abs/missing.html" = false
      ∧ (readTemplateWithCache (Fs.mk []) [] "/abs/missing.html").1 = templateFallback
      ∧ (readTemplateWithCache (Fs.mk []) [] "/abs/missing.html").2.2 = [] := by decide

/-! ## Watcher cache invalidation (C7) -/

/-- C7: a watcher `change` event whose path ends in `.html` clears both
caches in full — afterwards every lookup in either cache misses — and a
subsequent render of any page behaves exactly as with empty caches; in
particular a template with readable non-empty content `c` on disk is
re-read from the file system (the render uses `c`, not a previously cached
string). -/
theorem watcherChange_clears_caches (st : Caches) (file : String)
    (h : strEndsWith file ".html" = true) :
    onWatcherChange st file = Caches.mk [] []
      ∧ (∀ k, jsGet (onWatcherChange st file).templateContentCache k = none)
      ∧ (∀ k, jsGet (onWatcherChange st file).entryContentCache k = none)
      ∧ (∀ fs page isDev base,
          loadHtmlContent fs (onWatcherChange st file) page isDev base
            = loadHtmlContent fs (Caches.mk [] []) page isDev base)
      ∧ (∀ fs t c, (t == "") = false → fsRead fs t = some c → (c == "") = false →
          (readTemplateWithCache fs (onWatcherChange st file).templateContentCache t).1
            = c) := by
  have hcl : onWatcherChange st file = Caches.mk [] [] := by simp [onWatcherChange, h]
  refine ⟨hcl, ?_, ?_, ?_, ?_⟩
  · intro k; rw [hcl]; rfl
  · intro k; rw [hcl]; rfl
  · intro fs page isDev base; rw [hcl]
  · intro fs t c ht hr hc
    rw [hcl]
    rw [show (Caches.mk [] []).templateContentCache = [] from rfl,
      readTemplate_success fs [] t c ht rfl hr hc]

/-- Witness for C7: a change event for an `.html` path empties both caches. -/
theorem watcherChange_witness :
    onWatcherChange (Caches.mk [("/abs/t.html", "cached")] [("/e.ts", "cached")])
        "/abs/t.html"
      = Caches.mk [] [] :=
  (watcherChange_clears_caches _ _ (by decide)).1

/-! ## Production rendering frame (C10) -/

/-- C10: rendering a page in production mode neither reads from nor writes
to the dev assembled-HTML cache: `loadHtmlContent` with `isDev = false`
returns the entry cache exactly as it was, its rendered HTML does not
depend on the entry cache's contents, and the template cache changes only
by what the template read itself does — it stays unchanged or gains or
updates only the binding for the page's template path. -/
theorem loadHtml_prod_frame (fs : Fs) (tc ec : List (String × String)) (page : Page)
    (base : String) :
    (loadHtmlContent fs (Caches.mk tc ec) page false base).2.1.entryContentCache = ec
      ∧ (loadHtmlContent fs (Caches.mk tc ec) page false base).1
          = (loadHtmlContent fs (Caches.mk tc []) page false base).1
      ∧ (loadHtmlContent fs (Caches.mk tc ec) page false base).2.1.templateContentCache
          = (readTemplateWithCache fs tc page.template).2.1
      ∧ ((readTemplateWithCache fs tc page.template).2.1 = tc
          ∨ ∃ v, (readTemplateWithCache fs tc page.template).2.1 = jsSet tc page.template v) := by
  refine ⟨by simp [loadHtmlContent], by simp [loadHtmlContent], by simp [loadHtmlContent], ?_⟩
  unfold readTemplateWithCache
  by_cases ht : (page.template == "") = true
  · simp [ht]
  · by_cases hcache : ((jsGet tc page.template).getD "" != "") = true
    · simp [ht, hcache]
    · simp only [ht, hcache, Bool.false_eq_true, if_false]
      right
      exact ⟨_, rfl⟩

/-! ## Production adapter hooks (C5) -/

theorem dropHtmlSuffix_append (name : String) : dropHtmlSuffix (name ++ ".html") = name := by
  unfold dropHtmlSuffix
  rw [String.data_append]
  have hl : (name.data ++ (".html" : String).data).length - 5 = name.data.length := by
    simp [List.length_append]
  rw [hl, List.take_left]

theorem strEndsWith_html_append (name : String) :
    strEndsWith (name ++ ".html") ".html" = true := by
  unfold strEndsWith
  rw [String.data_append]
  simp [List.isSuffixOf_iff_suffix]

/-- C5: the production adapter claims exactly the identifiers ending in
`.html` — `resolveId` returns the identifier itself for those and declines
with `null` for all others — and, for every claimed identifier, `load`
strips the `.html` suffix to recover the page name, looks it up in the
frozen page index, returns the rendered HTML (template read plus idempotent
script injection, production mode, base `/`) when the page exists, and
declines with `null` when it does not. -/
theorem prodPlugin_spec :
    (∀ id : String, strEndsWith id ".html" = true → prodResolveId id = some id)
  ∧ (∀ id : String, strEndsWith id ".html" = false → prodResolveId id = none)
  ∧ (∀ name : String, dropHtmlSuffix (name ++ ".html") = name
        ∧ strEndsWith (name ++ ".html") ".html" = true)
  ∧ (∀ pages fs st id page, strEndsWith id ".html" = true →
      jsGet pages (dropHtmlSuffix id) = some page →
        prodLoad pages fs st id
          = (some (loadHtmlContent fs st page false "/").1,
             (loadHtmlContent fs st page false "/").2.1))
  ∧ (∀ pages fs st id, strEndsWith id ".html" = true →
      jsGet pages (dropHtmlSuffix id) = none → prodLoad pages fs st id = (none, st))
  ∧ (∀ pages fs st id, strEndsWith id ".html" = false →
      prodLoad pages fs st id = (none, st)) := by
  refine ⟨?_, ?_, fun name => ⟨dropHtmlSuffix_append name, strEndsWith_html_append name⟩,
    ?_, ?_, ?_⟩
  · intro id h; simp [prodResolveId, h]
  · intro id h; simp [prodResolveId, h]
  · intro pages fs st id page h hget; simp [prodLoad, h, hget]
  · intro pages fs st id h hget; simp [prodLoad, h, hget]
  · intro pages fs st id h; simp [prodLoad, h]

/-- Witness for C5 on a concrete one-page index: `index.html` is claimed
and rendered; the unknown `other.html` is declined. -/
theorem prodPlugin_witness :
    prodResolveId "index.html" = some "index.html"
      ∧ prodLoad [("index", Page.mk "index" "/src/pages/main.ts" "")] (Fs.mk [])
            (Caches.mk [] []) "index.html"
          = (some (loadHtmlContent (Fs.mk []) (Caches.mk [] [])
                (Page.mk "index" "/src/pages/main.ts" "") false "/").1,
             (loadHtmlContent (Fs.mk []) (Caches.mk [] [])
                (Page.mk "index" "/src/pages/main.ts" "") false "/").2.1)
      ∧ prodLoad [("index", Page.mk "index" "/src/pages/main.ts" "")] (Fs.mk [])
            (Caches.mk [] []) "other.html"
          = (none, Caches.mk [] []) :=
  ⟨prodPlugin_spec.1 "index.html" (by decide),
   prodPlugin_spec.2.2.2.1 _ _ _ "index.html" _ (by decide) (by decide),
   prodPlugin_spec.2.2.2.2.1 _ _ _ "other.html" (by decide) (by decide)⟩

/-! ## `Object.fromEntries` and name collisions (C9) -/

theorem jsGet_foldl (items : List (String × Page)) :
    ∀ (acc : List (String × Page)) (k : String),
      jsGet (items.foldl (fun m kv => jsSet m kv.1 kv.2) acc) k
        = ((items.reverse.find? (fun e => e.1 == k)).map (fun e => e.2)).or (jsGet acc k) := by
  induction items with
  | nil => intro acc k; simp
  | cons it rest ih =>
    intro acc k
    rw [List.foldl_cons, ih, List.reverse_cons, List.find?_append]
    cases hr : rest.reverse.find? (fun e => e.1 == k) with
    | some x => rfl
    | none =>
      by_cases hk : (it.1 == k) = true
      · have hk' : it.1 = k := by simpa using hk
        rw [find?_cons_pos (String × Page) (fun e => e.1 == k) it [] hk]
        subst hk'
        simp [jsGet_jsSet_self]
      · have hk' : (it.1 == k) = false := by simpa using hk
        rw [find?_cons_neg (String × Page) (fun e => e.1 == k) it [] hk']
        have hne : k ≠ it.1 := by
          intro e; rw [e] at hk'; simp at hk'
        simp [jsGet_jsSet_other acc it.1 k it.2 hne]

theorem jsGet_fromEntries (items : List (String × Page)) (k : String) :
    jsGet (fromEntries items) k = lastWins items k := by
  rw [fromEntries, jsGet_foldl items [] k, lastWins]
  cases items.reverse.find? (fun e => e.1 == k) <;> rfl

theorem keys_map_set {α : Type} (m : List (String × α)) (k : String) (v : α) :
    (m.map (fun e => if e.1 == k then (e.1, v) else e)).map Prod.fst = m.map Prod.fst := by
  rw [List.map_map]
  apply List.map_congr_left
  intro e _
  simp only [Function.comp_apply]
  split <;> rfl

theorem keys_nodup_jsSet {α : Type} (m : List (String × α)) (k : String) (v : α)
    (h : (m.map Prod.fst).Nodup) : ((jsSet m k v).map Prod.fst).Nodup := by
  by_cases ha : m.any (fun e => e.1 == k) = true
  · simp only [jsSet, ha, if_true]
    rw [keys_map_set]
    exact h
  · have hnotin : k ∉ m.map Prod.fst := by
      intro hmem
      obtain ⟨e, he, hfst⟩ := List.mem_map.mp hmem
      exact ha (List.any_eq_true.mpr ⟨e, he, by simp [hfst]⟩)
    simp only [jsSet, ha, Bool.false_eq_true, if_false, List.map_append, List.map_cons,
      List.map_nil]
    simp [List.nodup_append, h, hnotin]

theorem fromEntries_keys_nodup (items : List (String × Page)) :
    ((fromEntries items).map Prod.fst).Nodup := by
  rw [fromEntries]
  have : ∀ (acc : List (String × Page)), (acc.map Prod.fst).Nodup →
      ((items.foldl (fun m kv => jsSet m kv.1 kv.2) acc).map Prod.fst).Nodup := by
    induction items with
    | nil => intro acc h; simpa using h
    | cons it rest ih =>
      intro acc h
      rw [List.foldl_cons]
      exact ih _ (keys_nodup_jsSet acc it.1 it.2 h)
  exact this [] (by simp)

theorem countP_key_le_one {α : Type} (m : List (String × α)) (k : String)
    (h : (m.map Prod.fst).Nodup) : m.countP (fun e => e.1 == k) ≤ 1 := by
  have h1 : m.countP (fun e => e.1 == k) = (m.map Prod.fst).countP (fun x => x == k) := by
    rw [List.countP_map]
    rfl
  rw [h1, ← List.count]
  exact List.nodup_iff_count_le_one.mp h k

/-- C9: when several matches derive the same page name, the page index
holds exactly one entry under that name (at most one binding for any key),
and its `Page` is that of the match occurring later in scan order — earlier
matches are silently overwritten, not reported as an error. -/
theorem resolvePages_last_wins (fs : Fs) (sep : Char)
    (absPagesDir pagesDir defaultTemplate : String) (targets : List String) (tree : FsList)
    (name : String) :
    jsGet (resolvePages fs sep absPagesDir pagesDir defaultTemplate targets tree) name
        = lastWins ((findEntryFiles sep targets tree).map
            (fun rel => ((resolveItem fs sep absPagesDir pagesDir defaultTemplate rel).name,
              resolveItem fs sep absPagesDir pagesDir defaultTemplate rel))) name
      ∧ (resolvePages fs sep absPagesDir pagesDir defaultTemplate targets tree).countP
          (fun e => e.1 == name) ≤ 1 := by
  constructor
  · rw [resolvePages, jsGet_fromEntries, List.map_map]
    rfl
  · exact countP_key_le_one _ name (fromEntries_keys_nodup _)

/-! ## Template resolution priority (C1) -/

/-- C1: every page in the resolved index arises from a discovered match,
and its template path follows the strict priority chain: the colocated
`index.html` in the matched entry's directory when that file exists;
otherwise the caller-supplied default template when it is nonempty and
exists on disk; otherwise the empty-string fallback sentinel.  In
particular, when both the colocated file and an existing default template
are present, the colocated one is chosen. -/
theorem resolvePages_template_priority (fs : Fs) (sep : Char)
    (absPagesDir pagesDir defaultTemplate : String) (targets : List String) (tree : FsList)
    (name : String) (page : Page)
    (h : jsGet (resolvePages fs sep absPagesDir pagesDir defaultTemplate targets tree) name
        = some page) :
    ∃ rel ∈ findEntryFiles sep targets tree,
      page = resolveItem fs sep absPagesDir pagesDir defaultTemplate rel
        ∧ (fsExists fs (colocatedTemplate sep absPagesDir rel) = true →
            page.template = colocatedTemplate sep absPagesDir rel)
        ∧ (fsExists fs (colocatedTemplate sep absPagesDir rel) = false →
            (defaultTemplate != "" && fsExists fs defaultTemplate) = true →
            page.template = defaultTemplate)
        ∧ (fsExists fs (colocatedTemplate sep absPagesDir rel) = false →
            (defaultTemplate != "" && fsExists fs defaultTemplate) = false →
            page.template = "") := by
  rw [resolvePages, jsGet_fromEntries, List.map_map] at h
  unfold lastWins at h
  cases hf : ((findEntryFiles sep targets tree).map
      ((fun it => (it.name, it)) ∘ resolveItem fs sep absPagesDir pagesDir
        defaultTemplate)).reverse.find? (fun e => e.1 == name) with
  | none => rw [hf] at h; cases h
  | some e =>
    rw [hf] at h
    have hpage : e.2 = page := by simpa using h
    have hmem := List.mem_of_find?_eq_some hf
    rw [List.mem_reverse] at hmem
    obtain ⟨rel, hrel, herel⟩ := List.mem_map.mp hmem
    have hpg : page = resolveItem fs sep absPagesDir pagesDir defaultTemplate rel := by
      rw [← hpage, ← herel]
      rfl
    refine ⟨rel, hrel, hpg, ?_, ?_, ?_⟩
    · intro hex
      rw [hpg]
      simp [resolveItem, hex]
    · intro hex hdef
      rw [hpg]
      simp [resolveItem, hex, hdef]
    · intro hex hdef
      rw [hpg]
      simp [resolveItem, hex, hdef]

/-- Witness for C1: in `demoFs`, where both the colocated `/abs/a/index.html`
and the default `src/index.html` exist, the resolved `a` page carries the
colocated template. -/
theorem resolvePages_template_priority_witness :
    jsGet (resolvePages demoFs '/' "/abs" "src/pages" "src/index.html" ["main.ts"] demoTree)
        "a" = some (Page.mk "a" "/src/pages/a/main.ts" "/abs/a/index.html")
      ∧ fsExists demoFs "src/index.html" = true
      ∧ ∃ rel ∈ findEntryFiles '/' ["main.ts"] demoTree,
          Page.mk "a" "/src/pages/a/main.ts" "/abs/a/index.html"
              = resolveItem demoFs '/' "/abs" "src/pages" "src/index.html" rel
            ∧ (fsExists demoFs (colocatedTemplate '/' "/abs" rel) = true →
                (Page.mk "a" "/src/pages/a/main.ts" "/abs/a/index.html").template
                  = colocatedTemplate '/' "/abs" rel)
            ∧ (fsExists demoFs (colocatedTemplate '/' "/abs" rel) = false →
                (("src/index.html" : String) != "" && fsExists demoFs "src/index.html") = true →
                (Page.mk "a" "/src/pages/a/main.ts" "/abs/a/index.html").template
                  = "src/index.html")
            ∧ (fsExists demoFs (colocatedTemplate '/' "/abs" rel) = false →
                (("src/index.html" : String) != "" && fsExists demoFs "src/index.html") = false →
                (Page.mk "a" "/src/pages/a/main.ts" "/abs/a/index.html").template = "") :=
  ⟨by decide, by decide,
   resolvePages_template_priority demoFs '/' "/abs" "src/pages" "src/index.html"
     ["main.ts"] demoTree "a" (Page.mk "a" "/src/pages/a/main.ts" "/abs/a/index.html")
     (by decide)⟩

/-! ## Page naming and separator independence (C3) -/

theorem joinWith_append_one (sep : Char) (parts : List (List Char)) (x : List Char)
    (h : parts ≠ []) :
    joinWith sep (parts ++ [x]) = joinWith sep parts ++ sep :: x := by
  induction parts with
  | nil => exact absurd rfl h
  | cons p rest ih =>
    cases rest with
    | nil => rfl
    | cons q rest2 =>
      have e1 : joinWith sep ((p :: q :: rest2) ++ [x])
          = p ++ sep :: joinWith sep ((q :: rest2) ++ [x]) := rfl
      have e2 : joinWith sep (p :: q :: rest2) = p ++ sep :: joinWith sep (q :: rest2) := rfl
      rw [e1, e2, ih (by simp)]
      simp [List.append_assoc]

theorem splitOnCh_joinWith (sep : Char) (parts : List (List Char)) (h : parts ≠ [])
    (hs : ∀ p ∈ parts, sep ∉ p) :
    splitOnCh sep (joinWith sep parts) = parts := by
  induction parts with
  | nil => exact absurd rfl h
  | cons p rest ih =>
    cases rest with
    | nil =>
      have e1 : joinWith sep [p] = p := rfl
      rw [e1, splitOnCh_no_sep sep p (hs p (by simp))]
    | cons q rest2 =>
      have e2 : joinWith sep (p :: q :: rest2) = p ++ sep :: joinWith sep (q :: rest2) := rfl
      rw [e2, splitOnCh_append sep p _ (hs p (by simp)),
        ih (by simp) (fun x hx => hs x (by simp [hx]))]

theorem joinRel_joinComps (sep : Char) (comps : List String) (n : String)
    (hc : ∀ c ∈ comps, goodNameB sep c = true) :
    joinRel sep (joinComps sep comps) n = joinComps sep (comps ++ [n]) := by
  cases comps with
  | nil =>
    apply String.ext
    simp [joinRel, joinComps, joinWith]
  | cons c rest =>
    have hdata : (joinComps sep (c :: rest)).data
        = joinWith sep (c.data :: rest.map String.data) := rfl
    have hnonnil : (joinComps sep (c :: rest)).data ≠ [] := by
      rw [hdata]
      cases rest with
      | nil =>
        have hcg := hc c (by simp)
        simp only [goodNameB, Bool.and_eq_true] at hcg
        have : c.data ≠ [] := by simpa using hcg.1.1
        simpa [joinWith] using this
      | cons d rest2 =>
        have e2 : joinWith sep (c.data :: (d :: rest2).map String.data)
            = c.data ++ sep :: joinWith sep ((d :: rest2).map String.data) := rfl
        rw [e2]
        simp
    have hne : (joinComps sep (c :: rest) == "") = false := by
      apply beq_eq_false_iff_ne.mpr
      intro he
      exact hnonnil (by rw [he])
    unfold joinRel
    rw [if_neg (by simp [hne])]
    apply String.ext
    have hrhs : (joinComps sep ((c :: rest) ++ [n])).data
        = joinWith sep ((c.data :: rest.map String.data) ++ [n.data]) := by
      simp [joinComps]
    rw [hrhs, joinWith_append_one sep _ n.data (by simp)]
    simp [String.data_append, hdata]

theorem relToPosix_joinComps (sep : Char) (comps : List String) (n : String)
    (hn : goodNameB sep n = true) (hc : ∀ c ∈ comps, goodNameB sep c = true) :
    relToPosix sep (joinRel sep (joinComps sep comps) n)
      = String.mk (joinWith '/' ((comps ++ [n]).map String.data)) := by
  rw [joinRel_joinComps sep comps n hc]
  have hparts : ∀ p ∈ (comps ++ [n]).map String.data, sep ∉ p := by
    intro p hp
    obtain ⟨c, hcmem, rfl⟩ := List.mem_map.mp hp
    have hg : goodNameB sep c = true := by
      rcases List.mem_append.mp hcmem with h1 | h1
      · exact hc c h1
      · have : c = n := by simpa using h1
        rw [this]; exact hn
    simp only [goodNameB, Bool.and_eq_true] at hg
    simpa using hg.1.2
  show String.mk (joinWith '/' (splitOnCh sep (joinComps sep (comps ++ [n])).data)) = _
  rw [show (joinComps sep (comps ++ [n])).data
      = joinWith sep ((comps ++ [n]).map String.data) from rfl]
  rw [splitOnCh_joinWith sep _ (by simp) hparts]

theorem goodNameB_slash (sep : Char) (n : String) (h : goodNameB sep n = true) :
    goodNameB '/' n = true := by
  simp only [goodNameB, Bool.and_eq_true] at h ⊢
  exact ⟨⟨h.1.1, h.2⟩, h.2⟩

mutual
theorem goodEntryB_slash (sep : Char) :
    ∀ e : FsEntry, goodEntryB sep e = true → goodEntryB '/' e = true
  | FsEntry.file n, h => goodNameB_slash sep n h
  | FsEntry.symlink n, h => goodNameB_slash sep n h
  | FsEntry.dir n children, h => by
    simp only [goodEntryB, Bool.and_eq_true] at h ⊢
    exact ⟨goodNameB_slash sep n h.1, goodListB_slash sep children h.2⟩
theorem goodListB_slash (sep : Char) :
    ∀ l : FsList, goodListB sep l = true → goodListB '/' l = true
  | FsList.nil, _ => rfl
  | FsList.cons e rest, h => by
    simp only [goodListB, Bool.and_eq_true] at h ⊢
    exact ⟨goodEntryB_slash sep e h.1, goodListB_slash sep rest h.2⟩
end

mutual
theorem walkEntry_canon (sep : Char) (targets : List String) :
    ∀ (e : FsEntry) (comps : List String), goodEntryB sep e = true →
      (∀ c ∈ comps, goodNameB sep c = true) →
      walkEntry sep targets e (joinComps sep comps) = walkEntryC targets e comps
  | FsEntry.file n, comps, hg, hc => by
    by_cases hs : shouldSkip (FsEntry.file n) = true
    · simp [walkEntry, walkEntryC, hs]
    · have hs' : shouldSkip (FsEntry.file n) = false := by simpa using hs
      simp only [walkEntry, walkEntryC, hs', Bool.false_eq_true, if_false]
      rw [relToPosix_joinComps sep comps n hg hc]
  | FsEntry.symlink n, comps, hg, hc => by
    simp [walkEntry, walkEntryC]
  | FsEntry.dir n children, comps, hg, hc => by
    have hg' : goodNameB sep n = true ∧ goodListB sep children = true := by
      simpa [goodEntryB, Bool.and_eq_true] using hg
    by_cases hs : shouldSkip (FsEntry.dir n children) = true
    · simp [walkEntry, walkEntryC, hs]
    · have hs' : shouldSkip (FsEntry.dir n children) = false := by simpa using hs
      have hc' : ∀ c ∈ comps ++ [n], goodNameB sep c = true := by
        intro c hcm
        rcases List.mem_append.mp hcm with h1 | h1
        · exact hc c h1
        · have : c = n := by simpa using h1
          rw [this]; exact hg'.1
      simp only [walkEntry, walkEntryC, hs', Bool.false_eq_true, if_false]
      rw [joinRel_joinComps sep comps n hc,
        walkDir_canon sep targets children (comps ++ [n]) hg'.2 hc']
theorem walkDir_canon (sep : Char) (targets : List String) :
    ∀ (l : FsList) (comps : List String), goodListB sep l = true →
      (∀ c ∈ comps, goodNameB sep c = true) →
      walkDir sep targets l (joinComps sep comps) = walkDirC targets l comps
  | FsList.nil, _, _, _ => rfl
  | FsList.cons e rest, comps, hg, hc => by
    have hg' : goodEntryB sep e = true ∧ goodListB sep rest = true := by
      simpa [goodListB, Bool.and_eq_true] using hg
    simp only [walkDir, walkDirC]
    rw [walkEntry_canon sep targets e comps hg'.1 hc,
      walkDir_canon sep targets rest comps hg'.2 hc]
end

theorem findEntryFiles_canon (sep : Char) (targets : List String) (tree : FsList)
    (hg : goodListB sep tree = true) :
    findEntryFiles sep targets tree = walkDirC targets tree [] := by
  have h := walkDir_canon sep targets tree [] hg (by simp)
  simpa [findEntryFiles, joinComps, joinWith] using h

theorem deriveName_root (f : String) (h : '/' ∉ f.data) : deriveName f = "index" := by
  simp [deriveName, posixDirname, h]

theorem deriveName_nested (a b f : String) (ha : '/' ∉ a.data) (hb : '/' ∉ b.data)
    (hf : '/' ∉ f.data) :
    deriveName (a ++ "/" ++ b ++ "/" ++ f) = a ++ "/" ++ b := by
  have hdata : (a ++ "/" ++ b ++ "/" ++ f).data
      = a.data ++ '/' :: (b.data ++ '/' :: f.data) := by
    simp [String.data_append]
  have hsplit : splitOnCh '/' (a.data ++ '/' :: (b.data ++ '/' :: f.data))
      = [a.data, b.data, f.data] := by
    rw [splitOnCh_append '/' a.data _ ha, splitOnCh_append '/' b.data _ hb,
      splitOnCh_no_sep '/' f.data hf]
  have hcon : (a ++ "/" ++ b ++ "/" ++ f).data.contains '/' = true := by
    rw [hdata]; simp
  have hjoin : joinWith '/' [a.data, b.data] = a.data ++ '/' :: b.data := rfl
  have hdir : posixDirname (a ++ "/" ++ b ++ "/" ++ f) = a ++ "/" ++ b := by
    unfold posixDirname
    rw [if_pos (by simp [hcon]), hdata, hsplit]
    apply String.ext
    simp [String.data_append, hjoin]
  have hne : ((a ++ "/" ++ b) == ".") = false := by
    apply beq_eq_false_iff_ne.mpr
    intro he
    have hm : '/' ∈ (a ++ "/" ++ b).data := by simp [String.data_append]
    rw [he] at hm
    simp at hm
  simp [deriveName, hdir, hne]

/-- C3: page naming is platform-independent and follows the documented
scheme: for any tree whose entry names are nonempty and contain neither the
platform separator nor a slash, discovery under any separator returns the
same POSIX relative paths as under `/`; `resolvePages` names a page by
`deriveName` of its match; the derived name of a root-level entry (a match
without `/`) is exactly `"index"`; and the derived name of an entry in
nested directory `a/b` is exactly `"a/b"`. -/
theorem pageNames_spec :
    (∀ (sep : Char) (targets : List String) (tree : FsList), goodListB sep tree = true →
        findEntryFiles sep targets tree = findEntryFiles '/' targets tree)
  ∧ (∀ fs sep absPagesDir pagesDir defaultTemplate rel,
        (resolveItem fs sep absPagesDir pagesDir defaultTemplate rel).name = deriveName rel)
  ∧ (∀ f : String, '/' ∉ f.data → deriveName f = "index")
  ∧ (∀ a b f : String, '/' ∉ a.data → '/' ∉ b.data → '/' ∉ f.data →
        deriveName (a ++ "/" ++ b ++ "/" ++ f) = a ++ "/" ++ b) := by
  refine ⟨?_, fun fs sep absPagesDir pagesDir defaultTemplate rel => rfl,
    deriveName_root, deriveName_nested⟩
  intro sep targets tree hg
  rw [findEntryFiles_canon sep targets tree hg,
    findEntryFiles_canon '/' targets tree (goodListB_slash sep tree hg)]

/-- Witness for C3: the nested demo tree yields the same matches under the
Windows separator as under `/`, and the derived names are `index` and
`admin/dashboard`. -/
theorem pageNames_witness :
    findEntryFiles '\\' ["main.ts"] demoTreeNested
        = findEntryFiles '/' ["main.ts"] demoTreeNested
      ∧ deriveName "main.ts" = "index"
      ∧ deriveName ("admin" ++ "/" ++ "dashboard" ++ "/" ++ "main.ts")
        = "admin" ++ "/" ++ "dashboard" :=
  ⟨pageNames_spec.1 '\\' ["main.ts"] demoTreeNested (by decide),
   pageNames_spec.2.2.1 "main.ts" (by decide),
   pageNames_spec.2.2.2 "admin" "dashboard" "main.ts" (by decide) (by decide) (by decide)⟩

end VitePluginMpa
